import Mathlib

/-!
# Verification of the `l5xmodflt` module accessors and element substrate

This file gives a shallow embedding, in Lean 4, of the code of the
`l5xmodflt` repository (`l5x/module.py` together with the behaviour of the
element-dictionary / tag substrate exercised by `tests/test_dom.py` and
`tests/test_tags.py`), and proves the specification claims about it.

Python strings are modelled as Lean `String`, Python `dict` attribute maps
as ordered association lists (insertion order preserved, keys unique), and
Python exceptions as an explicit error type returned through `Except`.
All definitions are executable.
-/

/-- Python exceptions relevant to the embedded code.  `keyError` carries the
missing key, the other constructors carry the formatted message string. -/
inductive PyError where
  | typeError (msg : String)
  | valueError (msg : String)
  | keyError (key : String)
  | indexError (msg : String)
  deriving DecidableEq, Repr

/-- The Python values that can be passed to the embedded setters: strings,
integers, booleans and `None`.  (`bool` is a separate constructor; the
emulated `isinstance(v, str)` test is true exactly on `str`.) -/
inductive PyVal where
  | str (s : String)
  | int (n : Int)
  | bool (b : Bool)
  | pyNone
  deriving DecidableEq, Repr

/-- An XML element as the code sees it: a tag name, an ordered attribute
map (association list with unique keys, Python `dict` insertion order), and
the ordered list of direct child elements. -/
inductive Element where
  | mk (tag : String) (attrib : List (String × String)) (children : List Element)

/-- The element's tag name. -/
def Element.tag : Element → String
  | .mk t _ _ => t

/-- The element's ordered attribute map. -/
def Element.attrib : Element → List (String × String)
  | .mk _ a _ => a

/-- The element's ordered list of direct children. -/
def Element.children : Element → List Element
  | .mk _ _ c => c

/-- Lookup in an ordered attribute map (Python `d[k]` / `k in d`). -/
def lookupA : List (String × String) → String → Option String
  | [], _ => none
  | (k, v) :: rest, key => if k = key then some v else lookupA rest key

/-- Update/insert in an ordered attribute map (Python `d[k] = v`: replaces
the value in place if the key exists, else appends). -/
def setA : List (String × String) → String → String → List (String × String)
  | [], key, val => [(key, val)]
  | (k, v) :: rest, key, val =>
      if k = key then (k, val) :: rest else (k, v) :: setA rest key val

/-- `element.attrib[name]` as an `Option`. -/
def lookupAttr (e : Element) (key : String) : Option String :=
  lookupA e.attrib key

/-- `element.attrib[name] = value`. -/
def setAttr (e : Element) (key val : String) : Element :=
  .mk e.tag (setA e.attrib key val) e.children

/- ## Hexadecimal digits and Python `int(s, 16)` -/

/-- Whether `c` is a hexadecimal digit (`0-9`, `a-f`, `A-F`), stated on the
code point so hypotheses can be handled arithmetically. -/
def isHexChar (c : Char) : Bool :=
  (48 ≤ c.toNat ∧ c.toNat ≤ 57) ∨ (97 ≤ c.toNat ∧ c.toNat ≤ 102) ∨
    (65 ≤ c.toNat ∧ c.toNat ≤ 70)

/-- Numeric value of a hexadecimal digit character. -/
def hexCharVal (c : Char) : Nat :=
  if c.toNat ≤ 57 then c.toNat - 48
  else if 97 ≤ c.toNat then c.toNat - 87
  else c.toNat - 55

/-- Value of a list of hexadecimal digit characters, most significant
first. -/
def hexVal (l : List Char) : Nat :=
  l.foldl (fun a c => a * 16 + hexCharVal c) 0

/-- The ASCII whitespace characters stripped by Python `int`. -/
def isPyWs (c : Char) : Bool :=
  c.toNat = 32 ∨ c.toNat = 9 ∨ c.toNat = 10 ∨ c.toNat = 13 ∨
    c.toNat = 11 ∨ c.toNat = 12

/-- Strip leading and trailing whitespace (Python `int` tolerates it). -/
def stripWs (l : List Char) : List Char :=
  ((l.dropWhile isPyWs).reverse.dropWhile isPyWs).reverse

/-- Remove one leading `0x`/`0X` radix marker (Python `int(s, 16)` accepts
an optional prefix). -/
def stripHexMarker (l : List Char) : List Char :=
  match l with
  | a :: b :: rest => if a = '0' ∧ (b = 'x' ∨ b = 'X') then rest else l
  | _ => l

/-- The sign/marker/digit part of Python `int(s, 16)` after whitespace
stripping: optional sign, optional `0x` marker, then at least one
hexadecimal digit; `none` models the `ValueError` raised otherwise. -/
def pyIntHexList : List Char → Option Int
  | [] => none
  | c :: rest =>
    let signedDigits : Int × List Char :=
      if c = '+' then (1, rest)
      else if c = '-' then (-1, rest)
      else (1, c :: rest)
    let digits := stripHexMarker signedDigits.2
    if digits ≠ [] ∧ digits.all isHexChar then
      some (signedDigits.1 * (hexVal digits : Int))
    else none

/-- Python `int(s, 16)`: optional surrounding whitespace, optional sign,
optional `0x` marker, then at least one hexadecimal digit; `none` models
the `ValueError` raised otherwise.  (The caller has already removed every
underscore, so no grouping underscores remain in `s`.) -/
def pyIntHex (s : String) : Option Int :=
  pyIntHexList (stripWs s.data)

/- ## Python `"{0:012X}".format(x)` -/

/-- Uppercase hexadecimal digit character for `n < 16`. -/
def hexChar (n : Nat) : Char :=
  if n < 10 then Char.ofNat (48 + n) else Char.ofNat (55 + n)

/-- Fuel-driven most-significant-first uppercase hexadecimal digits
(structural recursion so the kernel can evaluate it). -/
def hexDigitsCore : Nat → Nat → List Char → List Char
  | 0, _, acc => acc
  | fuel + 1, n, acc =>
      if n < 16 then hexChar (n % 16) :: acc
      else hexDigitsCore fuel (n / 16) (hexChar (n % 16) :: acc)

/-- Uppercase hexadecimal digit list of `n` (`["0"]` for zero), most
significant digit first — Python `"{0:X}".format(n)` for `n ≥ 0`. -/
def natHexUpper (n : Nat) : List Char :=
  hexDigitsCore (n + 1) n []

/-- `"{0:012X}".format(n)` for a nonnegative value: the uppercase digits
zero-padded on the left to (at least) 12 characters. -/
def hex12 (n : Nat) : String :=
  ⟨List.replicate (12 - (natHexUpper n).length) '0' ++ natHexUpper n⟩

/-- Python `"{0:012X}".format(x)`: sign-aware zero padding to minimum
total width 12 (for a negative value the `-` sign occupies one column and
the digits are padded to 11). -/
def formatHex012X (x : Int) : String :=
  if x < 0 then
    ⟨'-' :: (List.replicate (11 - (natHexUpper x.natAbs).length) '0' ++
      natHexUpper x.natAbs)⟩
  else hex12 x.toNat

/- ## `SafetyNetworkNumber` (`module.py` lines 8-70) -/

/-- Python `value.replace('_', '')`. -/
def removeUnderscores (s : String) : String :=
  ⟨s.data.filter (· ≠ '_')⟩

/-- The error raised by `SafetyNetworkNumber.check_is_safety` when the
`SafetyNetwork` attribute is absent: a `TypeError` naming the element by
its `Name` attribute, falling back to `Id(Type)`; when the fallback
attributes are themselves absent the dictionary access inside the handler
raises a `KeyError` for the missing key (`Id` first, then `Type`). -/
def snnMissingError (e : Element) : PyError :=
  match lookupAttr e "Name" with
  | some nm =>
      .typeError (e.tag ++ " " ++ nm ++ " does not support a safety network number.")
  | none =>
    match lookupAttr e "Id" with
    | none => .keyError "Id"
    | some i =>
      match lookupAttr e "Type" with
      | none => .keyError "Type"
      | some t =>
          .typeError (e.tag ++ " " ++ i ++ "(" ++ t ++ ")" ++
            " does not support a safety network number.")

/-- `SafetyNetworkNumber.__get__`: after `check_is_safety`, return the
attribute text with the first `len('16#0000') = 7` characters dropped and
every underscore removed. -/
def snnGet (e : Element) : Except PyError String :=
  match lookupAttr e "SafetyNetwork" with
  | none => .error (snnMissingError e)
  | some snn => .ok (removeUnderscores ⟨snn.data.drop 7⟩)

/-- `'_'.join(['16#0000', padded[0:4], padded[4:8], padded[8:12]])`. -/
def snnFormat (padded : String) : String :=
  ⟨"16#0000".data ++ '_' :: (padded.data.take 4) ++
    '_' :: ((padded.data.drop 4).take 4) ++
    '_' :: ((padded.data.drop 8).take 4)⟩

/-- `SafetyNetworkNumber.__set__`: `check_is_safety`, require a string,
strip underscores, parse as hexadecimal (`ValueError` on failure), format
as 12 zero-padded uppercase hex digits, reject any other width
(`ValueError`), then write the prefixed, underscore-grouped text.  The
single mutation is the final attribute write; every error path leaves the
element untouched. -/
def snnSet (e : Element) (value : PyVal) : Except PyError Element :=
  match lookupAttr e "SafetyNetwork" with
  | none => .error (snnMissingError e)
  | some _ =>
    match value with
    | .str s =>
      match pyIntHex (removeUnderscores s) with
      | none => .error (.valueError "Safety network number must be a hex string")
      | some x =>
        let padded := formatHex012X x
        if padded.data.length = 12 then
          .ok (setAttr e "SafetyNetwork" (snnFormat padded))
        else
          .error (.valueError "Value must be 24-bit, 12 hex characters")
    | _ => .error (.typeError "Safety network number must be a hex string")

/-- The element state after running `__set__`: a raised exception leaves
the element exactly as it was (the attribute write is the last statement),
a successful call yields the updated element. -/
def snnSetFinal (e : Element) (value : PyVal) : Element :=
  match snnSet e value with
  | .ok e2 => e2
  | .error _ => e

/- ## `NatAddress.to_xml` (`module.py` lines 73-90) -/

/-- `NatAddress.to_xml`: the port must already carry the
`NATActualAddress` attribute (`TypeError` naming the port by `Id` and
`Type` otherwise — the two dictionary accesses in the format call raise
`KeyError` if those are absent, `Id` first), and the new value must be a
string (`TypeError` with a fixed message otherwise). -/
def natAddrToXml (port : Element) (newAddress : PyVal) : Except PyError String :=
  match lookupAttr port "NATActualAddress" with
  | some _ =>
    match newAddress with
    | .str s => .ok s
    | _ => .error (.typeError "NAT address must be a string.")
  | none =>
    match lookupAttr port "Id" with
    | none => .error (.keyError "Id")
    | some i =>
      match lookupAttr port "Type" with
      | none => .error (.keyError "Type")
      | some t =>
          .error (.typeError ("Port " ++ i ++ "(" ++ t ++ ")" ++
            " is not configured for NAT."))

/- ## `Inhibited` / `MajorFault` (`module.py` lines 93-128) -/

/-- `Inhibited.from_xml`: `True if raw == 'true' else False`. -/
def inhibitedFromXml (raw : String) : Bool :=
  if raw = "true" then true else false

/-- `Inhibited.to_xml`: require a `bool`, serialize as `str(value).lower()`
(the lowercase tokens `true` / `false`). -/
def inhibitedToXml (value : PyVal) : Except PyError String :=
  match value with
  | .bool b => .ok (if b then "true" else "false")
  | _ => .error (.typeError "Module inhibit value must be a bool.")

/-- `MajorFault.from_xml`: `True if raw == 'true' else False`. -/
def majorFaultFromXml (raw : String) : Bool :=
  if raw = "true" then true else false

/-- `MajorFault.to_xml`: require a `bool`, serialize as
`str(value).lower()`. -/
def majorFaultToXml (value : PyVal) : Except PyError String :=
  match value with
  | .bool b => .ok (if b then "true" else "false")
  | _ => .error (.typeError "Module MajorFault value must be a bool.")

/- ## `ElementDict` lookup (spec section 4.1; `dom.py` is not part of this
source snapshot, only its tests and callers are) -/

/-- Modelled from the spec: `ElementDict.get` of `dom.py` (absent from this
snapshot) scans the parent's *direct* children in document order and
returns the first whose key attribute matches the requested key. -/
def findChild : List Element → String → String → Option Element
  | [], _, _ => none
  | c :: rest, keyAttr, key =>
      if lookupAttr c keyAttr = some key then some c
      else findChild rest keyAttr key

/-- Modelled from the spec: keyed lookup over a parent element's direct
children only; a miss — including when the only matching descendant is a
grandchild — raises `KeyError`. -/
def elementDictGet (parent : Element) (keyAttr key : String) :
    Except PyError Element :=
  match findChild parent.children keyAttr key with
  | some c => .ok c
  | none => .error (.keyError key)

/-- Modelled from the spec: the `names` enumeration collects the key
attribute of every direct child that carries it, in document order. -/
def elementDictNames (parent : Element) (keyAttr : String) : List String :=
  parent.children.filterMap (fun c => lookupAttr c keyAttr)

/- ## Array resize index generation (spec section 4.4; `tag.py` is not
part of this source snapshot, only its tests are) -/

/-- All tuples `t` with `t.get k < bounds.get k`, enumerated in ascending
lexicographic order (first component slowest). -/
def indexTuples : List Nat → List (List Nat)
  | [] => [[]]
  | d :: rest =>
      ((List.range d).map (fun i => (indexTuples rest).map (fun t => i :: t))).flatten

/-- Modelled from the spec: the sequence of per-element `Index` tuples an
array resize generates, in the stored (dimension-reversed) presentation —
the stored tuple lists the least-significant dimension of the
most-significant-first `shape` first, and the generated sequence is
ascending lexicographic on the stored tuples. -/
def resizeIndices (shape : List Nat) : List (List Nat) :=
  indexTuples shape.reverse

/-- The `Index` attribute text of one generated element:
`[i0,i1,...]` over the stored tuple. -/
def indexAttr (t : List Nat) : String :=
  "[" ++ String.intercalate "," (t.map toString) ++ "]"

/-- Modelled from the spec: the child elements regenerated by an array
resize, one per index combination, each carrying its `Index` attribute. -/
def arrayResizeChildren (shape : List Nat) : List Element :=
  (resizeIndices shape).map (fun t => .mk "Element" [("Index", indexAttr t)] [])

/- ## Two's-complement integer tags and bit access (spec sections 4.4/8;
`tag.py` is not part of this source snapshot, only its tests are) -/

/-- The unsigned `w`-bit pattern of a signed tag value (Python
`value % (1 << w)`). -/
def toUnsigned (w : Nat) (v : Int) : Nat :=
  (v % ((2 : Int) ^ w)).toNat

/-- The signed value of an unsigned `w`-bit pattern under two's
complement. -/
def toSigned (w : Nat) (u : Nat) : Int :=
  if u < 2 ^ (w - 1) then (u : Int) else (u : Int) - 2 ^ w

/-- Modelled from the spec: reading bit `i` of a `w`-bit integer tag
extracts that bit of the value's two's-complement pattern. -/
def bitGet (w : Nat) (v : Int) (i : Nat) : Nat :=
  toUnsigned w v / 2 ^ i % 2

/-- Modelled from the spec: writing bit `i` of a `w`-bit integer tag uses
a clear-then-set mask operation on the two's-complement pattern — clear
bit `i`, add `b` at that position, reinterpret as a signed value.  Correct
across the sign bit by construction. -/
def bitSet (w : Nat) (v : Int) (i : Nat) (b : Nat) : Int :=
  toSigned w (toUnsigned w v - toUnsigned w v / 2 ^ i % 2 * 2 ^ i + b * 2 ^ i)

/-- Whether `c` is an uppercase hexadecimal digit (`0-9`, `A-F`) — the
alphabet Python `"{0:X}"` formatting emits. -/
def isUpperHexChar (c : Char) : Bool :=
  (48 ≤ c.toNat ∧ c.toNat ≤ 57) ∨ (65 ≤ c.toNat ∧ c.toNat ≤ 70)

/- ## Shared helper lemmas -/

/-- Writing an attribute makes it readable back (Python dict update). -/
theorem lookupA_setA (l : List (String × String)) (k v : String) :
    lookupA (setA l k v) k = some v := by
  induction l with
  | nil => simp [setA, lookupA]
  | cons p rest ih =>
    obtain ⟨a, b⟩ := p
    by_cases h : a = k
    · simp [setA, h, lookupA]
    · simp [setA, h, lookupA, ih]

/- ## Claim C10 -/

/-- C10: `SafetyNetworkNumber.__get__` performs no validation of the
stored attribute text — whenever the `SafetyNetwork` attribute is present
it succeeds and returns the attribute value with its first 7 characters
(the prefix length) dropped and all underscores removed, whatever the text
looks like; an attribute value of 7 or fewer characters yields the empty
string. -/
theorem snn_get_no_validation (e : Element) (s : String)
    (h : lookupAttr e "SafetyNetwork" = some s) :
    snnGet e = .ok ⟨(s.data.drop 7).filter (· ≠ '_')⟩ ∧
    (s.data.length ≤ 7 → snnGet e = .ok "") := by
  constructor
  · simp [snnGet, h, removeUnderscores]
  · intro hlen
    have hd : s.data.drop 7 = [] := List.drop_eq_nil_of_le hlen
    simp [snnGet, h, removeUnderscores, hd]

/-- Witness for C10: an attribute text of three characters that does not
carry the radix marker is accepted and yields the empty string. -/
theorem snn_get_no_validation_witness :
    snnGet (.mk "Port" [("SafetyNetwork", "abc")] []) = .ok "" :=
  (snn_get_no_validation (.mk "Port" [("SafetyNetwork", "abc")] []) "abc" rfl).2
    (by decide)

/- ## Claim C4 -/

/-- C4 (amended): on an element that does not carry the `SafetyNetwork`
attribute, both `__get__` and `__set__` raise a `TypeError` whose message
holds the element's tag name together with its `Name` attribute — or, when
`Name` is absent but `Id` and `Type` are present, the `Id(Type)` fallback
identity.  (When `Name`, `Id` or `Type` are also missing the fallback
lookup itself raises `KeyError`, not `TypeError`; see the
counterexample.) -/
theorem snn_missing_attr_type_error (e : Element) (v : PyVal)
    (hNo : lookupAttr e "SafetyNetwork" = none) :
    (∀ nm, lookupAttr e "Name" = some nm →
      snnGet e = .error (.typeError (e.tag ++ " " ++ nm ++
        " does not support a safety network number.")) ∧
      snnSet e v = .error (.typeError (e.tag ++ " " ++ nm ++
        " does not support a safety network number."))) ∧
    (∀ i t, lookupAttr e "Name" = none → lookupAttr e "Id" = some i →
      lookupAttr e "Type" = some t →
      snnGet e = .error (.typeError (e.tag ++ " " ++ i ++ "(" ++ t ++ ")" ++
        " does not support a safety network number.")) ∧
      snnSet e v = .error (.typeError (e.tag ++ " " ++ i ++ "(" ++ t ++ ")" ++
        " does not support a safety network number."))) := by
  constructor
  · intro nm hnm
    simp [snnGet, snnSet, hNo, snnMissingError, hnm]
  · intro i t hn hi ht
    simp [snnGet, snnSet, hNo, snnMissingError, hn, hi, ht]

/-- Counterexample for C4 as frozen: an element with no attributes at all
raises `KeyError` (from the `Id` lookup inside the error handler), not
`TypeError`, on both access paths. -/
theorem snn_missing_attr_counterexample :
    snnGet (.mk "Module" [] []) = .error (.keyError "Id") ∧
    snnSet (.mk "Module" [] []) (.str "0") = .error (.keyError "Id") ∧
    ¬ (∃ msg, snnGet (.mk "Module" [] []) = .error (.typeError msg)) := by
  refine ⟨rfl, rfl, ?_⟩
  rintro ⟨msg, h⟩
  simp [snnGet, snnMissingError, lookupAttr, lookupA, Element.attrib,
    Element.tag] at h

/-- Witness for C4: a module element named `safe_mod` without the
`SafetyNetwork` attribute gets the `TypeError` naming it. -/
theorem snn_missing_attr_type_error_witness :
    snnGet (.mk "Module" [("Name", "safe_mod")] []) =
      .error (.typeError "Module safe_mod does not support a safety network number.") :=
  ((snn_missing_attr_type_error (.mk "Module" [("Name", "safe_mod")] [])
    (.str "0") rfl).1 "safe_mod" rfl).1

/- ## Claim C5 -/

/-- C5 (amended): `NatAddress.to_xml` raises `TypeError` naming the
offending port (by `Id` and `Type`) when the port's element does not
already carry the `NATActualAddress` attribute, and raises `TypeError`
with the fixed message `NAT address must be a string.` — which does not
name the port — when the new value is not a string (in particular when it
is `None`). -/
theorem nat_address_errors (port : Element) (v : PyVal) (i t : String)
    (hId : lookupAttr port "Id" = some i) (hType : lookupAttr port "Type" = some t) :
    (lookupAttr port "NATActualAddress" = none →
      natAddrToXml port v = .error (.typeError ("Port " ++ i ++ "(" ++ t ++ ")" ++
        " is not configured for NAT."))) ∧
    ((∃ a, lookupAttr port "NATActualAddress" = some a) → (∀ s, v ≠ .str s) →
      natAddrToXml port v = .error (.typeError "NAT address must be a string.")) := by
  constructor
  · intro h
    simp [natAddrToXml, h, hId, hType]
  · rintro ⟨a, ha⟩ hs
    cases v with
    | str s => exact absurd rfl (hs s)
    | int n => simp [natAddrToXml, ha]
    | bool b => simp [natAddrToXml, ha]
    | pyNone => simp [natAddrToXml, ha]

/-- Counterexample for C5 as frozen: on a port with `Id` `7777` that is
configured for NAT, writing `None` raises a `TypeError` whose message
contains no `7` at all, hence cannot name the offending port. -/
theorem nat_address_counterexample :
    natAddrToXml (.mk "Port" [("Id", "7777"), ("Type", "ICP"),
        ("NATActualAddress", "10.0.0.1")] []) .pyNone =
      .error (.typeError "NAT address must be a string.") ∧
    ("NAT address must be a string.".data.contains '7') = false := by
  exact ⟨rfl, by decide⟩

/-- Witness for C5: a port not configured for NAT rejects a write with the
`TypeError` naming it. -/
theorem nat_address_errors_witness :
    natAddrToXml (.mk "Port" [("Id", "1"), ("Type", "ICP")] []) .pyNone =
      .error (.typeError "Port 1(ICP) is not configured for NAT.") :=
  (nat_address_errors (.mk "Port" [("Id", "1"), ("Type", "ICP")] [])
    .pyNone "1" "ICP" rfl rfl).1 rfl

/- ## Claim C6 -/

/-- C6: the `Inhibited` and `MajorFault` boolean codecs serialize `True`
as the lowercase token `true` and `False` as `false`; the read conversion
maps the literal `true` to `True` and every other string to `False`, so
reading back a written boolean is the identity; any non-boolean argument
to the write conversion raises `TypeError`. -/
theorem bool_attribute_codec (b : Bool) (v : PyVal) (s : String) :
    inhibitedToXml (.bool b) = .ok (if b then "true" else "false") ∧
    majorFaultToXml (.bool b) = .ok (if b then "true" else "false") ∧
    inhibitedFromXml "true" = true ∧ majorFaultFromXml "true" = true ∧
    (s ≠ "true" → inhibitedFromXml s = false ∧ majorFaultFromXml s = false) ∧
    inhibitedFromXml (if b then "true" else "false") = b ∧
    majorFaultFromXml (if b then "true" else "false") = b ∧
    ((∀ c : Bool, v ≠ .bool c) →
      inhibitedToXml v = .error (.typeError "Module inhibit value must be a bool.") ∧
      majorFaultToXml v = .error (.typeError "Module MajorFault value must be a bool.")) := by
  refine ⟨rfl, rfl, rfl, rfl, ?_, ?_, ?_, ?_⟩
  · intro h
    simp [inhibitedFromXml, majorFaultFromXml, h]
  · cases b <;> rfl
  · cases b <;> rfl
  · intro h
    cases v with
    | str s2 => exact ⟨rfl, rfl⟩
    | int n => exact ⟨rfl, rfl⟩
    | bool c => exact absurd rfl (h c)
    | pyNone => exact ⟨rfl, rfl⟩

/-- Witness for C6: `True` serializes to `true`, the capitalized string
`True` reads back as `False`, and an integer argument raises `TypeError`. -/
theorem bool_attribute_codec_witness :
    inhibitedToXml (.bool true) = .ok "true" ∧
    inhibitedFromXml "True" = false ∧
    inhibitedToXml (.int 5) = .error (.typeError "Module inhibit value must be a bool.") := by
  have h := bool_attribute_codec true (.int 5) "True"
  refine ⟨by simpa using h.1, (h.2.2.2.2.1 (by decide)).1, ?_⟩
  exact (h.2.2.2.2.2.2.2 (by intro c; simp)).1

/- ## Claim C7 -/

/-- A successful `findChild` returns a direct child, with a matching key,
and no earlier sibling matches. -/
theorem findChild_some (l : List Element) (keyAttr key : String) (c : Element)
    (h : findChild l keyAttr key = some c) :
    c ∈ l ∧ lookupAttr c keyAttr = some key ∧
    ∃ l1 l2, l = l1 ++ c :: l2 ∧ ∀ c2 ∈ l1, lookupAttr c2 keyAttr ≠ some key := by
  induction l with
  | nil => simp [findChild] at h
  | cons a rest ih =>
    by_cases ha : lookupAttr a keyAttr = some key
    · simp only [findChild, ha, if_pos] at h
      simp only [Option.some.injEq] at h
      subst h
      exact ⟨List.mem_cons_self _ _, ha, [], rest, by simp, by simp⟩
    · simp only [findChild, ha, if_neg, ite_false] at h
      obtain ⟨hm, hk, l1, l2, heq, hall⟩ := ih h
      refine ⟨List.mem_cons_of_mem _ hm, hk, a :: l1, l2, by simp [heq], ?_⟩
      intro c2 hc2
      rcases List.mem_cons.mp hc2 with h1 | h2
      · subst h1; exact ha
      · exact hall c2 h2

/-- When no direct child matches, `findChild` fails — whatever deeper
descendants look like. -/
theorem findChild_none (l : List Element) (keyAttr key : String)
    (h : ∀ c ∈ l, lookupAttr c keyAttr ≠ some key) :
    findChild l keyAttr key = none := by
  induction l with
  | nil => rfl
  | cons a rest ih =>
    have ha := h a (List.mem_cons_self _ _)
    simp only [findChild, ha, ite_false]
    exact ih fun c hc => h c (List.mem_cons_of_mem _ hc)

/-- C7: `ElementDict` lookup returns the first *direct* child whose key
attribute matches, raises `KeyError` whenever no direct child matches —
regardless of what grandchildren carry, since only `parent.children` is
consulted — and the `names` enumeration draws only from direct children. -/
theorem element_dict_depth (parent : Element) (keyAttr key : String) :
    (∀ c, elementDictGet parent keyAttr key = .ok c →
      c ∈ parent.children ∧ lookupAttr c keyAttr = some key ∧
      ∃ l1 l2, parent.children = l1 ++ c :: l2 ∧
        ∀ c2 ∈ l1, lookupAttr c2 keyAttr ≠ some key) ∧
    ((∀ c ∈ parent.children, lookupAttr c keyAttr ≠ some key) →
      elementDictGet parent keyAttr key = .error (.keyError key)) ∧
    (∀ nm ∈ elementDictNames parent keyAttr,
      ∃ c ∈ parent.children, lookupAttr c keyAttr = some nm) := by
  refine ⟨?_, ?_, ?_⟩
  · intro c hc
    unfold elementDictGet at hc
    cases hf : findChild parent.children keyAttr key with
    | none => rw [hf] at hc; exact absurd hc (by simp)
    | some c2 =>
      rw [hf] at hc
      simp only [Except.ok.injEq] at hc
      subst hc
      exact findChild_some _ _ _ _ hf
  · intro h
    unfold elementDictGet
    rw [findChild_none _ _ _ h]
  · intro nm hnm
    unfold elementDictNames at hnm
    obtain ⟨c, hc, hl⟩ := List.mem_filterMap.mp hnm
    exact ⟨c, hc, hl⟩

/-- Witness for C7, the scenario of `test_depth_lookup`: the only element
whose key attribute is `bar` is a grandchild, so the lookup raises
`KeyError`. -/
theorem element_dict_depth_witness :
    elementDictGet
      (.mk "parent" [] [.mk "child" [("key", "foo")]
        [.mk "grandchild" [("key", "bar")] []]]) "key" "bar" =
      .error (.keyError "bar") :=
  (element_dict_depth
    (.mk "parent" [] [.mk "child" [("key", "foo")]
      [.mk "grandchild" [("key", "bar")] []]]) "key" "bar").2.1 (by decide)

/- ## Claim C8 -/

/-- One tuple per point of the cross product of the bounds. -/
theorem indexTuples_length (l : List Nat) : (indexTuples l).length = l.prod := by
  induction l with
  | nil => rfl
  | cons d rest ih =>
    rw [indexTuples, List.length_flatten, List.map_map]
    have hc : (List.length ∘ fun i => List.map (fun t => i :: t) (indexTuples rest)) =
        fun _ => rest.prod := by
      funext i
      simp [ih]
    rw [hc, List.map_const', List.sum_replicate, List.length_range, smul_eq_mul,
      List.prod_cons]

/-- The generated tuples are exactly those componentwise below the
bounds (which forces length and range). -/
theorem mem_indexTuples (l : List Nat) (t : List Nat) :
    t ∈ indexTuples l ↔ List.Forall₂ (· < ·) t l := by
  induction l generalizing t with
  | nil =>
    simp [indexTuples, List.forall₂_nil_right_iff]
  | cons d rest ih =>
    simp only [indexTuples, List.mem_flatten, List.mem_map, List.mem_range]
    constructor
    · rintro ⟨L, ⟨i, hi, rfl⟩, ht⟩
      obtain ⟨t2, ht2, rfl⟩ := List.mem_map.mp ht
      exact List.Forall₂.cons hi ((ih t2).mp ht2)
    · intro h
      cases h with
      | cons hd htl =>
        exact ⟨_, ⟨_, hd, rfl⟩, List.mem_map.mpr ⟨_, (ih _).mpr htl, rfl⟩⟩

/-- The generated sequence is ascending in the lexicographic order. -/
theorem pairwise_lex_indexTuples (l : List Nat) :
    List.Pairwise (List.Lex (· < ·)) (indexTuples l) := by
  induction l with
  | nil => simp [indexTuples]
  | cons d rest ih =>
    rw [indexTuples]
    apply List.pairwise_flatten.mpr
    refine ⟨?_, ?_⟩
    · intro bl hbl
      obtain ⟨i, _, rfl⟩ := List.mem_map.mp hbl
      exact List.pairwise_map.mpr (ih.imp fun h => List.Lex.cons h)
    · rw [List.pairwise_map]
      refine (List.pairwise_lt_range d).imp ?_
      intro i j hij x hx y hy
      obtain ⟨t1, _, rfl⟩ := List.mem_map.mp hx
      obtain ⟨t2, _, rfl⟩ := List.mem_map.mp hy
      exact List.Lex.rel hij

/-- Strict lexicographic order on `List Nat` is irreflexive. -/
theorem lex_irrefl_nat (t : List Nat) : ¬ List.Lex (· < ·) t t := by
  induction t with
  | nil => exact fun h => by cases h
  | cons a rest ih =>
    intro h
    cases h with
    | cons h2 => exact ih h2
    | rel h2 => exact lt_irrefl _ h2

/-- All generated tuples are distinct. -/
theorem indexTuples_nodup (l : List Nat) : (indexTuples l).Nodup :=
  (pairwise_lex_indexTuples l).imp fun h => by
    rintro rfl
    exact lex_irrefl_nat _ h

/-- C8: resizing to a valid shape (1-3 positive dimensions) generates
exactly `shape.prod` child elements; every stored index tuple has one
component per dimension, lies componentwise within bounds once its
dimension-reversed storage order is undone, all tuples are distinct, and
the stored sequence is in ascending lexicographic order; each child
carries the tuple printed into its `Index` attribute. -/
theorem array_resize_indices (shape : List Nat)
    (hLen1 : 1 ≤ shape.length) (hLen3 : shape.length ≤ 3)
    (hPos : ∀ d ∈ shape, 0 < d) :
    (arrayResizeChildren shape).length = shape.prod ∧
    (resizeIndices shape).length = shape.prod ∧
    (∀ t ∈ resizeIndices shape, t.length = shape.length ∧
      List.Forall₂ (· < ·) t.reverse shape) ∧
    (resizeIndices shape).Nodup ∧
    List.Pairwise (List.Lex (· < ·)) (resizeIndices shape) ∧
    arrayResizeChildren shape =
      (resizeIndices shape).map
        (fun t => .mk "Element" [("Index", indexAttr t)] []) := by
  have hlen : (resizeIndices shape).length = shape.prod := by
    rw [resizeIndices, indexTuples_length, List.prod_reverse]
  refine ⟨?_, hlen, ?_, ?_, ?_, rfl⟩
  · rw [arrayResizeChildren, List.length_map, hlen]
  · intro t ht
    have hf : List.Forall₂ (· < ·) t shape.reverse :=
      (mem_indexTuples shape.reverse t).mp ht
    constructor
    · rw [hf.length_eq, List.length_reverse]
    · have := List.rel_reverse hf
      rwa [List.reverse_reverse] at this
  · exact indexTuples_nodup shape.reverse
  · exact pairwise_lex_indexTuples shape.reverse

/-- Witness for C8: the `(2,3,4)` resize of the test suite — 24 elements,
all tuples of length 3, within bounds, unique and lexicographically
sorted. -/
theorem array_resize_indices_witness :
    (arrayResizeChildren [2, 3, 4]).length = [2, 3, 4].prod ∧
    (resizeIndices [2, 3, 4]).length = [2, 3, 4].prod ∧
    (∀ t ∈ resizeIndices [2, 3, 4], t.length = [2, 3, 4].length ∧
      List.Forall₂ (· < ·) t.reverse [2, 3, 4]) ∧
    (resizeIndices [2, 3, 4]).Nodup ∧
    List.Pairwise (List.Lex (· < ·)) (resizeIndices [2, 3, 4]) ∧
    arrayResizeChildren [2, 3, 4] =
      (resizeIndices [2, 3, 4]).map
        (fun t => .mk "Element" [("Index", indexAttr t)] []) :=
  array_resize_indices [2, 3, 4] (by decide) (by decide) (by decide)

/- ## Claim C9 -/

/-- The two's-complement pattern of any value is below `2 ^ w`. -/
theorem toUnsigned_lt (w : Nat) (v : Int) : toUnsigned w v < 2 ^ w := by
  unfold toUnsigned
  have hpos : (0 : Int) < 2 ^ w := by positivity
  have h1 : v % 2 ^ w < 2 ^ w := Int.emod_lt_of_pos v hpos
  have h2 : 0 ≤ v % 2 ^ w := Int.emod_nonneg v (ne_of_gt hpos)
  have hM : ((2 ^ w : Nat) : Int) = (2 : Int) ^ w := by push_cast; ring
  omega

/-- Decoding a `w`-bit pattern and re-encoding it is the identity. -/
theorem toUnsigned_toSigned (w u : Nat) (h : u < 2 ^ w) :
    toUnsigned w (toSigned w u) = u := by
  have hM : ((2 ^ w : Nat) : Int) = (2 : Int) ^ w := by push_cast; ring
  unfold toSigned toUnsigned
  split
  · rw [Int.emod_eq_of_lt (by positivity) (by omega)]
    exact Int.toNat_natCast u
  · have he : ((u : Int) - 2 ^ w) % 2 ^ w = (u : Int) % 2 ^ w := by
      rw [Int.sub_emod, Int.emod_self, sub_zero, Int.emod_emod_of_dvd _ dvd_rfl]
    rw [he, Int.emod_eq_of_lt (by positivity) (by omega)]
    exact Int.toNat_natCast u

/-- Split a number at bit `i`: high part, bit `i`, low part. -/
theorem bit_decompose (u i : Nat) :
    u = u / 2 ^ (i + 1) * 2 ^ (i + 1) + (u / 2 ^ i % 2) * 2 ^ i + u % 2 ^ i := by
  have h1 := Nat.div_add_mod u (2 ^ i)
  have h2 := Nat.div_add_mod (u / 2 ^ i) 2
  have h3 : u / 2 ^ i / 2 = u / 2 ^ (i + 1) := by
    rw [Nat.div_div_eq_div_mul, pow_succ]
  rw [h3] at h2
  calc u = 2 ^ i * (u / 2 ^ i) + u % 2 ^ i := (h1).symm
    _ = 2 ^ i * (2 * (u / 2 ^ (i + 1)) + u / 2 ^ i % 2) + u % 2 ^ i := by rw [h2]
    _ = u / 2 ^ (i + 1) * 2 ^ (i + 1) + (u / 2 ^ i % 2) * 2 ^ i + u % 2 ^ i := by
        rw [pow_succ]; ring

/-- A bit strictly below position `i` only sees the low part. -/
theorem bit_low (lo c h2 i j : Nat) (hj : j < i) :
    (lo + c * 2 ^ i + h2 * 2 ^ (i + 1)) / 2 ^ j % 2 = lo / 2 ^ j % 2 := by
  have e1 : 2 ^ i = 2 ^ (i - j) * 2 ^ j := by
    rw [← pow_add]
    congr 1
    omega
  have e2 : 2 ^ (i + 1) = 2 ^ (i + 1 - j) * 2 ^ j := by
    rw [← pow_add]
    congr 1
    omega
  have e3 : lo + c * 2 ^ i + h2 * 2 ^ (i + 1) =
      lo + (c * 2 ^ (i - j) + h2 * 2 ^ (i + 1 - j)) * 2 ^ j := by
    rw [e1, e2]; ring
  rw [e3, Nat.add_mul_div_right _ _ (Nat.two_pow_pos j)]
  obtain ⟨k1, hk1⟩ : ∃ k, 2 ^ (i - j) = 2 * k :=
    ⟨2 ^ (i - j - 1), by rw [← pow_succ']; congr 1; omega⟩
  obtain ⟨k2, hk2⟩ : ∃ k, 2 ^ (i + 1 - j) = 2 * k :=
    ⟨2 ^ (i - j), by rw [← pow_succ']; congr 1; omega⟩
  rw [hk1, hk2]
  have e4 : c * (2 * k1) + h2 * (2 * k2) = 2 * (c * k1 + h2 * k2) := by ring
  rw [e4]
  generalize c * k1 + h2 * k2 = m
  generalize lo / 2 ^ j = L
  omega

/-- Bit `i` itself reads back the planted bit. -/
theorem bit_mid (lo c h2 i : Nat) (hlo : lo < 2 ^ i) (hc : c ≤ 1) :
    (lo + c * 2 ^ i + h2 * 2 ^ (i + 1)) / 2 ^ i % 2 = c := by
  have e3 : lo + c * 2 ^ i + h2 * 2 ^ (i + 1) = lo + (c + h2 * 2) * 2 ^ i := by
    rw [pow_succ]; ring
  rw [e3, Nat.add_mul_div_right _ _ (Nat.two_pow_pos i),
    Nat.div_eq_of_lt hlo]
  omega

/-- A bit strictly above position `i` only sees the high part. -/
theorem bit_high (lo c h2 i j : Nat) (hlo : lo < 2 ^ i) (hc : c ≤ 1) (hj : i < j) :
    (lo + c * 2 ^ i + h2 * 2 ^ (i + 1)) / 2 ^ j % 2 = h2 / 2 ^ (j - (i + 1)) % 2 := by
  have hr : lo + c * 2 ^ i < 2 ^ (i + 1) := by
    have : c * 2 ^ i ≤ 2 ^ i := by
      calc c * 2 ^ i ≤ 1 * 2 ^ i := Nat.mul_le_mul_right _ hc
        _ = 2 ^ i := one_mul _
    have h2p : 2 ^ (i + 1) = 2 ^ i + 2 ^ i := by rw [pow_succ]; ring
    omega
  have e1 : 2 ^ j = 2 ^ (i + 1) * 2 ^ (j - (i + 1)) := by
    rw [← pow_add]
    congr 1
    omega
  rw [e1, ← Nat.div_div_eq_div_mul,
    Nat.add_mul_div_right _ _ (Nat.two_pow_pos (i + 1)),
    Nat.div_eq_of_lt hr, Nat.zero_add]

/-- The pattern written by `bitSet`, in split form. -/
theorem bitSet_unsigned_eq (u i b : Nat) :
    u - u / 2 ^ i % 2 * 2 ^ i + b * 2 ^ i =
      u % 2 ^ i + b * 2 ^ i + u / 2 ^ (i + 1) * 2 ^ (i + 1) := by
  have hd := bit_decompose u i
  omega

/-- The pattern written by `bitSet` stays inside `w` bits. -/
theorem bitSet_unsigned_lt (w i : Nat) (hi : i < w) (u : Nat) (hu : u < 2 ^ w)
    (b : Nat) (hb : b ≤ 1) :
    u % 2 ^ i + b * 2 ^ i + u / 2 ^ (i + 1) * 2 ^ (i + 1) < 2 ^ w := by
  have hlo : u % 2 ^ i < 2 ^ i := Nat.mod_lt _ (Nat.two_pow_pos i)
  have hhi : u / 2 ^ (i + 1) < 2 ^ (w - i - 1) := by
    rw [Nat.div_lt_iff_lt_mul (Nat.two_pow_pos (i + 1))]
    calc u < 2 ^ w := hu
      _ = 2 ^ (w - i - 1) * 2 ^ (i + 1) := by rw [← pow_add]; congr 1; omega
  have h1 : u / 2 ^ (i + 1) * 2 ^ (i + 1) ≤ (2 ^ (w - i - 1) - 1) * 2 ^ (i + 1) :=
    Nat.mul_le_mul_right _ (by omega)
  have h2 : (2 ^ (w - i - 1) - 1) * 2 ^ (i + 1) + 2 ^ (i + 1) = 2 ^ w := by
    rw [Nat.sub_mul, one_mul, Nat.sub_add_cancel, ← pow_add]
    · congr 1
      omega
    · exact Nat.le_mul_of_pos_left _ (Nat.two_pow_pos (w - i - 1))
  have h3 : 2 ^ (i + 1) = 2 ^ i + 2 ^ i := by rw [pow_succ]; ring
  have hbp : b * 2 ^ i ≤ 2 ^ i := by
    calc b * 2 ^ i ≤ 1 * 2 ^ i := Nat.mul_le_mul_right _ hb
      _ = 2 ^ i := one_mul _
  omega

/-- Writing bit `i` plants exactly `b` there and leaves every other bit of
the `w`-bit pattern unchanged. -/
theorem bitGet_bitSet (w i : Nat) (hi : i < w) (v : Int) (b : Nat) (hb : b ≤ 1) :
    bitGet w (bitSet w v i b) i = b ∧
    (∀ j, j ≠ i → bitGet w (bitSet w v i b) j = bitGet w v j) := by
  have hul : toUnsigned w v < 2 ^ w := toUnsigned_lt w v
  have hkey : toUnsigned w (toSigned w
      (toUnsigned w v - toUnsigned w v / 2 ^ i % 2 * 2 ^ i + b * 2 ^ i)) =
      toUnsigned w v % 2 ^ i + b * 2 ^ i +
        toUnsigned w v / 2 ^ (i + 1) * 2 ^ (i + 1) := by
    rw [bitSet_unsigned_eq]
    exact toUnsigned_toSigned w _ (bitSet_unsigned_lt w i hi _ hul b hb)
  constructor
  · show toUnsigned w (toSigned w _) / 2 ^ i % 2 = b
    rw [hkey]
    exact bit_mid _ b _ i (Nat.mod_lt _ (Nat.two_pow_pos i)) hb
  · intro j hj
    show toUnsigned w (toSigned w _) / 2 ^ j % 2 = toUnsigned w v / 2 ^ j % 2
    rw [hkey]
    have hdec : toUnsigned w v = toUnsigned w v % 2 ^ i +
        (toUnsigned w v / 2 ^ i % 2) * 2 ^ i +
        toUnsigned w v / 2 ^ (i + 1) * 2 ^ (i + 1) := by
      have := bit_decompose (toUnsigned w v) i
      omega
    rcases lt_or_gt_of_ne hj with hlt2 | hgt
    · rw [bit_low _ _ _ _ _ hlt2]
      conv_rhs => rw [hdec]
      rw [bit_low _ _ _ _ _ hlt2]
    · have hbit : toUnsigned w v / 2 ^ i % 2 ≤ 1 :=
        Nat.le_of_lt_succ (Nat.mod_lt _ (by norm_num))
      rw [bit_high _ _ _ _ _ (Nat.mod_lt _ (Nat.two_pow_pos i)) hb hgt]
      conv_rhs => rw [hdec]
      rw [bit_high _ _ _ _ _ (Nat.mod_lt _ (Nat.two_pow_pos i)) hbit hgt]

/-- Setting a bit of a zeroed tag yields the decoded one-hot pattern. -/
theorem bitSet_of_zero (w i : Nat) :
    bitSet w 0 i 1 = toSigned w (2 ^ i) := by
  unfold bitSet toUnsigned
  simp

/-- The decoded one-hot pattern: the minimum value at the sign bit,
`2 ^ i` elsewhere. -/
theorem toSigned_pow (w i : Nat) (hw : 0 < w) (hi : i < w) :
    toSigned w (2 ^ i) = if i = w - 1 then -((2 : Int) ^ (w - 1)) else (2 : Int) ^ i := by
  unfold toSigned
  by_cases h : i = w - 1
  · subst h
    rw [if_neg (lt_irrefl _), if_pos rfl]
    have hww : w = w - 1 + 1 := by omega
    have hsp : (2 : Int) ^ w = 2 ^ (w - 1) * 2 := by
      conv_lhs => rw [hww]
      rw [pow_succ]
    rw [hsp]
    push_cast
    ring
  · have hlt : i < w - 1 := by omega
    have hp : 2 ^ i < 2 ^ (w - 1) := Nat.pow_lt_pow_right one_lt_two hlt
    rw [if_pos hp, if_neg h]
    push_cast
    ring

/-- Clearing the bit again returns the tag to zero. -/
theorem bitSet_clear_pow (w i : Nat) (hw : 0 < w) (hi : i < w) :
    bitSet w (toSigned w (2 ^ i)) i 0 = 0 := by
  unfold bitSet
  have hru : toUnsigned w (toSigned w (2 ^ i)) = 2 ^ i :=
    toUnsigned_toSigned w _ (Nat.pow_lt_pow_right one_lt_two hi)
  rw [hru, Nat.div_self (Nat.two_pow_pos i)]
  simp only [Nat.one_mod, one_mul, Nat.sub_self, Nat.zero_mul, Nat.zero_add,
    zero_mul, add_zero]
  unfold toSigned
  rw [if_pos (Nat.two_pow_pos (w - 1))]
  rfl

/-- C9: for each tag width in {8, 16, 32} and bit index `i` below the
width, setting bit `i` of a zeroed integer tag reads back as the signed
value whose two's-complement pattern is `1 <<< i` — the minimum value when
`i` is the sign bit, `2 ^ i` otherwise; clearing the bit again returns the
tag to zero; and a bit write plants exactly the requested bit, leaving
every other bit of any starting value unchanged. -/
theorem integer_bit_write (w : Nat) (hw : w = 8 ∨ w = 16 ∨ w = 32)
    (i : Nat) (hi : i < w) :
    bitSet w 0 i 1 = toSigned w (2 ^ i) ∧
    (i = w - 1 → bitSet w 0 i 1 = -((2 : Int) ^ (w - 1))) ∧
    (i ≠ w - 1 → bitSet w 0 i 1 = (2 : Int) ^ i) ∧
    bitGet w (bitSet w 0 i 1) i = 1 ∧
    bitSet w (bitSet w 0 i 1) i 0 = 0 ∧
    (∀ v : Int, ∀ b ≤ 1, bitGet w (bitSet w v i b) i = b ∧
      ∀ j, j ≠ i → bitGet w (bitSet w v i b) j = bitGet w v j) := by
  have hw0 : 0 < w := by rcases hw with h | h | h <;> omega
  have h1 := bitSet_of_zero w i
  have h2 := toSigned_pow w i hw0 hi
  refine ⟨h1, ?_, ?_, ?_, ?_, ?_⟩
  · intro hsign
    rw [h1, h2, if_pos hsign]
  · intro hns
    rw [h1, h2, if_neg hns]
  · exact (bitGet_bitSet w i hi 0 1 (by norm_num)).1
  · rw [h1]
    exact bitSet_clear_pow w i hw0 hi
  · intro v b hb
    exact ⟨(bitGet_bitSet w i hi v b hb).1, (bitGet_bitSet w i hi v b hb).2⟩

/-- Witness for C9 at the SINT sign bit: setting bit 7 of a zeroed 8-bit
tag yields -128, reading the bit back gives 1, clearing restores 0, and
bit 3 is untouched. -/
theorem integer_bit_write_witness :
    bitSet 8 0 7 1 = -128 ∧
    bitGet 8 (bitSet 8 0 7 1) 7 = 1 ∧
    bitSet 8 (bitSet 8 0 7 1) 7 0 = 0 ∧
    bitGet 8 (bitSet 8 0 7 1) 3 = 0 := by
  have h := integer_bit_write 8 (Or.inl rfl) 7 (by norm_num)
  refine ⟨?_, h.2.2.2.1, h.2.2.2.2.1, ?_⟩
  · have := h.2.1 rfl
    norm_num at this
    exact this
  · have h4 := (h.2.2.2.2.2 0 1 (by norm_num)).2 3 (by norm_num)
    rw [h4]
    rfl

/- ## Claims C1-C3: hexadecimal formatting and parsing lemmas -/

/-- Fuel does not matter once it exceeds the value. -/
theorem hexDigitsCore_eq (n : Nat) : ∀ f1 f2 acc, n < f1 → n < f2 →
    hexDigitsCore f1 n acc = hexDigitsCore f2 n acc := by
  induction n using Nat.strong_induction_on with
  | _ n ih =>
    intro f1 f2 acc h1 h2
    match f1, f2 with
    | a + 1, b + 1 =>
      by_cases h16 : n < 16
      · simp [hexDigitsCore, h16]
      · simp only [hexDigitsCore, h16, if_false]
        have hlt : n / 16 < n := Nat.div_lt_self (by omega) (by norm_num)
        exact ih (n / 16) hlt a b _ (by omega) (by omega)

/-- One unfolding of the digit recursion. -/
theorem natHexUpper_step (n : Nat) (h : 16 ≤ n) (acc : List Char) :
    hexDigitsCore (n + 1) n acc =
      hexDigitsCore (n / 16 + 1) (n / 16) (hexChar (n % 16) :: acc) := by
  have h16 : ¬ n < 16 := by omega
  simp only [hexDigitsCore, h16, if_false]
  exact hexDigitsCore_eq (n / 16) n (n / 16 + 1) _
    (Nat.div_lt_self (by omega) (by norm_num)) (Nat.lt_succ_self _)

/-- The accumulator is just appended. -/
theorem hexDigitsCore_acc (n : Nat) : ∀ acc,
    hexDigitsCore (n + 1) n acc = hexDigitsCore (n + 1) n [] ++ acc := by
  induction n using Nat.strong_induction_on with
  | _ n ih =>
    intro acc
    by_cases h16 : n < 16
    · simp [hexDigitsCore, h16]
    · push_neg at h16
      have hlt : n / 16 < n := Nat.div_lt_self (by omega) (by norm_num)
      rw [natHexUpper_step n h16, natHexUpper_step n h16,
        ih (n / 16) hlt, ih (n / 16) hlt [hexChar (n % 16)]]
      simp

/-- Recurrence for the digit list of a large value. -/
theorem natHexUpper_rec (n : Nat) (h : 16 ≤ n) :
    natHexUpper n = natHexUpper (n / 16) ++ [hexChar (n % 16)] := by
  unfold natHexUpper
  rw [natHexUpper_step n h, hexDigitsCore_acc]

/-- A value below the base is one digit. -/
theorem natHexUpper_small (n : Nat) (h : n < 16) :
    natHexUpper n = [hexChar n] := by
  unfold natHexUpper
  simp [hexDigitsCore, h, Nat.mod_eq_of_lt h]

/-- A value below `16 ^ k` needs at most `k` digits. -/
theorem natHexUpper_length_le (k : Nat) : ∀ n, 0 < k → n < 16 ^ k →
    (natHexUpper n).length ≤ k := by
  induction k with
  | zero => omega
  | succ k ihk =>
    intro n _ hn
    by_cases h16 : n < 16
    · rw [natHexUpper_small n h16]
      simp
    · push_neg at h16
      have hk0 : 0 < k := by
        by_contra hk
        have hz : k = 0 := by omega
        subst hz
        simp [pow_one] at hn
        omega
      have hdiv : n / 16 < 16 ^ k := by
        rw [Nat.div_lt_iff_lt_mul (by norm_num)]
        calc n < 16 ^ (k + 1) := hn
          _ = 16 ^ k * 16 := by rw [pow_succ]
      rw [natHexUpper_rec n h16]
      simp only [List.length_append, List.length_cons, List.length_nil]
      have := ihk (n / 16) hk0 hdiv
      omega

/-- There is always at least one digit. -/
theorem natHexUpper_length_pos (n : Nat) : 1 ≤ (natHexUpper n).length := by
  by_cases h16 : n < 16
  · rw [natHexUpper_small n h16]
    simp
  · push_neg at h16
    rw [natHexUpper_rec n h16]
    simp

/-- A value at least `16 ^ k` needs more than `k` digits. -/
theorem natHexUpper_length_ge (k : Nat) : ∀ n, 16 ^ k ≤ n →
    k + 1 ≤ (natHexUpper n).length := by
  induction k with
  | zero =>
    intro n _
    exact natHexUpper_length_pos n
  | succ k ihk =>
    intro n hn
    have h16 : 16 ≤ n := by
      calc 16 = 16 ^ 1 := (pow_one 16).symm
        _ ≤ 16 ^ (k + 1) := Nat.pow_le_pow_right (by norm_num) (by omega)
        _ ≤ n := hn
    have hdiv : 16 ^ k ≤ n / 16 := by
      rw [Nat.le_div_iff_mul_le (by norm_num)]
      calc 16 ^ k * 16 = 16 ^ (k + 1) := (pow_succ 16 k).symm
        _ ≤ n := hn
    rw [natHexUpper_rec n h16]
    simp only [List.length_append, List.length_cons, List.length_nil]
    have := ihk (n / 16) hdiv
    omega

/-- Each emitted digit character is an uppercase hexadecimal digit. -/
theorem hexChar_upper (m : Nat) (h : m < 16) : isUpperHexChar (hexChar m) = true := by
  interval_cases m <;> decide

/-- All characters of the digit list are uppercase hexadecimal digits. -/
theorem natHexUpper_upper (n : Nat) : ∀ c ∈ natHexUpper n, isUpperHexChar c = true := by
  induction n using Nat.strong_induction_on with
  | _ n ih =>
    intro c hc
    by_cases h16 : n < 16
    · rw [natHexUpper_small n h16] at hc
      simp only [List.mem_singleton] at hc
      subst hc
      exact hexChar_upper n h16
    · push_neg at h16
      rw [natHexUpper_rec n h16] at hc
      rcases List.mem_append.mp hc with h | h
      · exact ih (n / 16) (Nat.div_lt_self (by omega) (by norm_num)) c h
      · simp only [List.mem_singleton] at h
        subst h
        exact hexChar_upper _ (Nat.mod_lt _ (by norm_num))

/-- An uppercase hexadecimal digit is never an underscore. -/
theorem isUpperHexChar_ne_underscore (c : Char) (h : isUpperHexChar c = true) :
    c ≠ '_' := by
  rintro rfl
  exact absurd h (by decide)

/-- The zero-padded 12-digit rendering of a value below `16 ^ 12` has
exactly 12 characters. -/
theorem hex12_length (n : Nat) (h : n < 16 ^ 12) : (hex12 n).data.length = 12 := by
  show (List.replicate (12 - (natHexUpper n).length) '0' ++ natHexUpper n).length = 12
  rw [List.length_append, List.length_replicate]
  have hle := natHexUpper_length_le 12 n (by norm_num) h
  omega

/-- The rendering of a value needing more than 12 digits is longer than
12 characters. -/
theorem hex12_length_ge (n : Nat) (h : 16 ^ 12 ≤ n) : 13 ≤ (hex12 n).data.length := by
  show 13 ≤ (List.replicate (12 - (natHexUpper n).length) '0' ++ natHexUpper n).length
  rw [List.length_append, List.length_replicate]
  have := natHexUpper_length_ge 12 n h
  omega

/-- Every character of the padded rendering is an uppercase hexadecimal
digit. -/
theorem hex12_chars (n : Nat) : ∀ c ∈ (hex12 n).data, isUpperHexChar c = true := by
  intro c hc
  rcases List.mem_append.mp hc with h | h
  · rw [List.eq_of_mem_replicate h]
    decide
  · exact natHexUpper_upper n c h

/-- Formatting a nonnegative value takes the zero-padded branch. -/
theorem formatHex012X_nonneg (x : Int) (h : 0 ≤ x) :
    formatHex012X x = hex12 x.toNat := by
  unfold formatHex012X
  rw [if_neg (not_lt.mpr h)]

/-- `dropWhile` does nothing when no character satisfies the predicate. -/
theorem dropWhile_eq_self_of_all (l : List Char) (p : Char → Bool)
    (h : ∀ c ∈ l, p c = false) : l.dropWhile p = l := by
  cases l with
  | nil => rfl
  | cons a t =>
    rw [List.dropWhile_cons, if_neg]
    simp [h a (List.mem_cons_self a t)]

/-- Whitespace stripping does nothing to a whitespace-free list. -/
theorem stripWs_eq_self (l : List Char) (h : ∀ c ∈ l, isPyWs c = false) :
    stripWs l = l := by
  unfold stripWs
  rw [dropWhile_eq_self_of_all l _ h,
    dropWhile_eq_self_of_all l.reverse _ (fun c hc => h c (List.mem_reverse.mp hc)),
    List.reverse_reverse]

/-- Hexadecimal digits are not whitespace. -/
theorem isHexChar_not_ws (c : Char) (h : isHexChar c = true) : isPyWs c = false := by
  simp only [isHexChar, decide_eq_true_eq] at h
  simp only [isPyWs, decide_eq_false_iff_not]
  omega

/-- The `0x` marker stripper does nothing to a pure digit list. -/
theorem stripHexMarker_eq_self (l : List Char)
    (h : ∀ c ∈ l, isHexChar c = true) : stripHexMarker l = l := by
  cases l with
  | nil => rfl
  | cons a t =>
    cases t with
    | nil => rfl
    | cons b r =>
      have hb := h b (by simp)
      show (if a = '0' ∧ (b = 'x' ∨ b = 'X') then r else a :: b :: r) = a :: b :: r
      rw [if_neg]
      rintro ⟨ha0, hbx⟩
      rcases hbx with hx | hX
      · subst hx
        exact absurd hb (by decide)
      · subst hX
        exact absurd hb (by decide)

/-- A nonempty pure digit list parses to its hexadecimal value. -/
theorem pyIntHexList_of_hexDigits (l : List Char) (hne : l ≠ [])
    (h : ∀ c ∈ l, isHexChar c = true) :
    pyIntHexList l = some ((hexVal l : Int)) := by
  cases l with
  | nil => exact absurd rfl hne
  | cons c rest =>
    have hc := h c (List.mem_cons_self c rest)
    have hcp : c ≠ '+' := by
      rintro rfl
      exact absurd hc (by decide)
    have hcm : c ≠ '-' := by
      rintro rfl
      exact absurd hc (by decide)
    have hmk := stripHexMarker_eq_self (c :: rest) h
    have hall : (c :: rest).all isHexChar = true := List.all_eq_true.mpr h
    simp [pyIntHexList, hcp, hcm, hmk, hall]

/-- Python `int(s, 16)` on a string of pure hexadecimal digits returns
their value. -/
theorem pyIntHex_of_hexDigits (l : List Char) (hne : l ≠ [])
    (h : ∀ c ∈ l, isHexChar c = true) :
    pyIntHex ⟨l⟩ = some ((hexVal l : Int)) := by
  show pyIntHexList (stripWs l) = _
  rw [stripWs_eq_self l (fun c hc => isHexChar_not_ws c (h c hc))]
  exact pyIntHexList_of_hexDigits l hne h

/-- Dropping the 7-character radix marker from the formatted attribute
text and removing the three grouping underscores recovers exactly the
12 padded digits. -/
theorem snnFormat_roundtrip (padded : String) (hlen : padded.data.length = 12)
    (hno : ∀ c ∈ padded.data, c ≠ '_') :
    ((snnFormat padded).data.drop 7).filter (· ≠ '_') = padded.data := by
  show (((("16#0000".data ++ '_' :: padded.data.take 4) ++
      '_' :: (padded.data.drop 4).take 4) ++
      '_' :: (padded.data.drop 8).take 4).drop 7).filter (· ≠ '_') = padded.data
  rw [List.append_assoc, List.append_assoc,
    show (7 : Nat) = ("16#0000".data).length from rfl, List.drop_left]
  have hf : ∀ sub : List Char, (∀ c ∈ sub, c ≠ '_') →
      sub.filter (fun x => !decide (x = '_')) = sub := by
    intro sub hs
    refine List.filter_eq_self.mpr ?_
    intro c hc
    simpa using hs c hc
  simp only [List.filter_append, List.filter_cons]
  norm_num
  rw [hf _ (fun c hc => hno c (List.mem_of_mem_take hc)),
    hf _ (fun c hc => hno c (List.mem_of_mem_drop (List.mem_of_mem_take hc))),
    hf _ (fun c hc => hno c (List.mem_of_mem_drop (List.mem_of_mem_take hc)))]
  have h3 : (padded.data.drop 8).take 4 = padded.data.drop 8 :=
    List.take_of_length_le (by rw [List.length_drop, hlen])
  rw [h3]
  have h2 : (padded.data.drop 4).take 4 ++ padded.data.drop 8 = padded.data.drop 4 := by
    have h := List.take_append_drop 4 (padded.data.drop 4)
    rw [List.drop_drop] at h
    norm_num at h
    exact h
  rw [h2]
  exact List.take_append_drop 4 padded.data

/-- C1: for every string of hexadecimal digits and grouping underscores
whose parsed value fits in 12 hexadecimal digits, `__set__` on an element
carrying the `SafetyNetwork` attribute succeeds, and a subsequent
`__get__` returns exactly the 12-character uppercase zero-padded
hexadecimal representation of the parsed value — no radix marker, no
separators (all characters are uppercase hexadecimal digits). -/
theorem snn_roundtrip (e : Element) (s : String)
    (hAttr : ∃ a, lookupAttr e "SafetyNetwork" = some a)
    (hChars : ∀ c ∈ s.data, isHexChar c = true ∨ c = '_')
    (hNe : s.data.filter (· ≠ '_') ≠ [])
    (hFit : hexVal (s.data.filter (· ≠ '_')) < 16 ^ 12) :
    ∃ e2, snnSet e (.str s) = .ok e2 ∧
      snnGet e2 = .ok (hex12 (hexVal (s.data.filter (· ≠ '_')))) ∧
      (hex12 (hexVal (s.data.filter (· ≠ '_')))).data.length = 12 ∧
      (∀ c ∈ (hex12 (hexVal (s.data.filter (· ≠ '_')))).data,
        isUpperHexChar c = true) := by
  obtain ⟨a, ha⟩ := hAttr
  have hhex : ∀ c ∈ s.data.filter (· ≠ '_'), isHexChar c = true := by
    intro c hc
    have hcm := List.mem_of_mem_filter hc
    have hcp := List.of_mem_filter hc
    rcases hChars c hcm with h | h
    · exact h
    · exfalso
      simp [h] at hcp
  have hparse : pyIntHex (removeUnderscores s) =
      some ((hexVal (s.data.filter (· ≠ '_')) : Int)) :=
    pyIntHex_of_hexDigits _ hNe hhex
  have hfmt : formatHex012X ((hexVal (s.data.filter (· ≠ '_')) : Int)) =
      hex12 (hexVal (s.data.filter (· ≠ '_'))) := by
    rw [formatHex012X_nonneg _ (Int.natCast_nonneg _), Int.toNat_natCast]
  have hlen12 : (hex12 (hexVal (s.data.filter (· ≠ '_')))).data.length = 12 :=
    hex12_length _ hFit
  have hset : snnSet e (.str s) = .ok (setAttr e "SafetyNetwork"
      (snnFormat (hex12 (hexVal (s.data.filter (· ≠ '_')))))) := by
    simp only [snnSet, ha, hparse, hfmt, hlen12, if_true]
  refine ⟨_, hset, ?_, hlen12, hex12_chars _⟩
  have hlook : lookupAttr (setAttr e "SafetyNetwork"
      (snnFormat (hex12 (hexVal (s.data.filter (· ≠ '_')))))) "SafetyNetwork" =
      some (snnFormat (hex12 (hexVal (s.data.filter (· ≠ '_'))))) :=
    lookupA_setA _ _ _
  have hdata := snnFormat_roundtrip (hex12 (hexVal (s.data.filter (· ≠ '_'))))
    hlen12 (fun c hc => isUpperHexChar_ne_underscore c (hex12_chars _ c hc))
  simp only [snnGet, hlook]
  show Except.ok (⟨((snnFormat (hex12 (hexVal (s.data.filter (· ≠ '_'))))).data.drop 7).filter
      (· ≠ '_')⟩ : String) = _
  rw [hdata]

/-- Witness for C1: writing `16_7F` round-trips to `00000000167F`. -/
theorem snn_roundtrip_witness :
    ∃ e2, snnSet (.mk "Port" [("SafetyNetwork", "16#0000_0001_0002_0003")] [])
        (.str "16_7F") = .ok e2 ∧
      snnGet e2 = .ok (hex12 (hexVal ("16_7F".data.filter (· ≠ '_')))) ∧
      (hex12 (hexVal ("16_7F".data.filter (· ≠ '_')))).data.length = 12 ∧
      (∀ c ∈ (hex12 (hexVal ("16_7F".data.filter (· ≠ '_')))).data,
        isUpperHexChar c = true) :=
  snn_roundtrip (.mk "Port" [("SafetyNetwork", "16#0000_0001_0002_0003")] [])
    "16_7F" ⟨"16#0000_0001_0002_0003", rfl⟩ (by decide) (by decide) (by decide)

/-- C2 (failing input): Python `int(new, 16)` also accepts a signed
string, so `__set__` accepts `-5`; the sign survives the width check
(`"{0:012X}".format(-5)` is 12 characters) and the attribute written is
`16#0000_-000_0000_0005`, whose first group `-000` is not a group of
hexadecimal digits — the serialization contract of the claim is
violated. -/
theorem snn_set_negative_accepted :
    snnSet (.mk "Port" [("SafetyNetwork", "16#0000_0001_0002_0003")] [])
        (.str "-5") =
      .ok (.mk "Port" [("SafetyNetwork", "16#0000_-000_0000_0005")] []) ∧
    ¬ (∀ c ∈ ("16#0000_-000_0000_0005".data.drop 7),
        isHexChar c = true ∨ c = '_') :=
  ⟨rfl, by decide⟩

/-- C3: on an element carrying the `SafetyNetwork` attribute, `__set__`
raises `TypeError` for a non-string argument, `ValueError` when the
underscore-stripped string does not parse as hexadecimal, and `ValueError`
when the parsed value needs more than 12 hexadecimal digits; in every
error case the element is left unchanged (the attribute write is the final
statement, after all checks). -/
theorem snn_set_errors (e : Element) (v : PyVal)
    (hAttr : ∃ a, lookupAttr e "SafetyNetwork" = some a) :
    ((∀ s, v ≠ .str s) →
      snnSet e v = .error (.typeError "Safety network number must be a hex string") ∧
      snnSetFinal e v = e) ∧
    (∀ s, v = .str s → pyIntHex (removeUnderscores s) = none →
      snnSet e v = .error (.valueError "Safety network number must be a hex string") ∧
      snnSetFinal e v = e) ∧
    (∀ s x, v = .str s → pyIntHex (removeUnderscores s) = some x →
      (16 : Int) ^ 12 ≤ x →
      snnSet e v = .error (.valueError "Value must be 24-bit, 12 hex characters") ∧
      snnSetFinal e v = e) := by
  obtain ⟨a, ha⟩ := hAttr
  have hfin : ∀ err, snnSet e v = .error err → snnSetFinal e v = e := by
    intro err h
    unfold snnSetFinal
    rw [h]
  refine ⟨?_, ?_, ?_⟩
  · intro h
    have herr : snnSet e v =
        .error (.typeError "Safety network number must be a hex string") := by
      cases v with
      | str s => exact absurd rfl (h s)
      | int n => simp [snnSet, ha]
      | bool b => simp [snnSet, ha]
      | pyNone => simp [snnSet, ha]
    exact ⟨herr, hfin _ herr⟩
  · intro s hv hp
    subst hv
    have herr : snnSet e (.str s) =
        .error (.valueError "Safety network number must be a hex string") := by
      simp [snnSet, ha, hp]
    exact ⟨herr, hfin _ herr⟩
  · intro s x hv hp hx
    subst hv
    have hx0 : (0 : Int) ≤ x := le_trans (by positivity) hx
    have hxn : 16 ^ 12 ≤ x.toNat := by
      have hc : ((16 ^ 12 : Nat) : Int) ≤ x := by
        push_cast
        exact hx
      have := Int.toNat_le_toNat hc
      rwa [Int.toNat_natCast] at this
    have h13 := hex12_length_ge x.toNat hxn
    have herr : snnSet e (.str s) =
        .error (.valueError "Value must be 24-bit, 12 hex characters") := by
      simp only [snnSet, ha, hp, formatHex012X_nonneg x hx0]
      rw [if_neg (by omega)]
    exact ⟨herr, hfin _ herr⟩

/-- Witness for C3: an integer argument, the non-hex string `zz`, and the
13-digit value `1000000000000` are all rejected, leaving the element
unchanged. -/
theorem snn_set_errors_witness :
    (snnSet (.mk "Port" [("SafetyNetwork", "16#0000_0001_0002_0003")] [])
        (.int 3) =
      .error (.typeError "Safety network number must be a hex string") ∧
      snnSetFinal (.mk "Port" [("SafetyNetwork", "16#0000_0001_0002_0003")] [])
        (.int 3) = .mk "Port" [("SafetyNetwork", "16#0000_0001_0002_0003")] []) ∧
    (snnSet (.mk "Port" [("SafetyNetwork", "16#0000_0001_0002_0003")] [])
        (.str "zz") =
      .error (.valueError "Safety network number must be a hex string")) ∧
    (snnSet (.mk "Port" [("SafetyNetwork", "16#0000_0001_0002_0003")] [])
        (.str "1000000000000") =
      .error (.valueError "Value must be 24-bit, 12 hex characters")) := by
  have h1 := snn_set_errors (.mk "Port" [("SafetyNetwork", "16#0000_0001_0002_0003")] [])
    (.int 3) ⟨"16#0000_0001_0002_0003", rfl⟩
  have h2 := snn_set_errors (.mk "Port" [("SafetyNetwork", "16#0000_0001_0002_0003")] [])
    (.str "zz") ⟨"16#0000_0001_0002_0003", rfl⟩
  have h3 := snn_set_errors (.mk "Port" [("SafetyNetwork", "16#0000_0001_0002_0003")] [])
    (.str "1000000000000") ⟨"16#0000_0001_0002_0003", rfl⟩
  refine ⟨h1.1 (by intro s; simp), (h2.2.1 "zz" rfl (by decide)).1,
    (h3.2.2 "1000000000000" (16 ^ 12) rfl (by decide) (by decide)).1⟩
